import Mathlib

set_option linter.unusedVariables false

/-!
Verification of the structural query/rewrite engine and the position-anchor
component of knut. The `Mark` definitions are translated from
`src/core/mark.cpp`; the tree-sitter wrapper (parser, query, cursor,
predicates, transformation) is not among the shown sources, so those
components are modelled from the specification, as indicated on each
definition.
-/

namespace Knut

/-- A text document, modelled by its current character content.
The real `TextDocument` lives outside the shown core; only its text matters here. -/
structure TextDocument where
  text : List Char
deriving DecidableEq, Repr

/-- Translation of `Mark` from `src/core/mark.cpp`: a non-owning reference to
the owning document (`none` once that document is destroyed) together with the
tracked offset `m_pos`. -/
structure Mark where
  editor : Option TextDocument
  pos : Int
deriving DecidableEq, Repr

/-- Translation of the constructor `Mark::Mark(TextDocument *editor, int pos)`:
it stores the editor and the position as given, with no validation or clamping
(the C++ constructor only asserts the editor pointer is non-null and connects
the change signal). -/
def Mark.make (editor : TextDocument) (pos : Int) : Mark :=
  { editor := some editor, pos := pos }

/-- Translation of `Mark::isValid()`: true iff the owning document still exists. -/
def Mark.isValid (m : Mark) : Bool :=
  m.editor.isSome

/-- Translation of `Mark::position()`: returns `m_pos` unconditionally. -/
def Mark.position (m : Mark) : Int :=
  m.pos

/-- Translation of `Mark::checkEditor()`: true iff the document still exists;
on failure the C++ code logs an error and the caller bails out. -/
def Mark.checkEditor (m : Mark) : Bool :=
  m.editor.isSome

/-- Modelled from the spec: `TextDocument::convertPosition` is not part of the
shown core; per the spec, line and column are computed on demand from the
current offset against the current document text (1-based line, column counted
from the last newline). -/
def convertPosition (doc : TextDocument) (pos : Int) : Int × Int :=
  let prefixChars := doc.text.take pos.toNat
  let line := 1 + ((prefixChars.filter (fun c => c = '\n')).length : Int)
  let column := ((prefixChars.reverse.takeWhile (fun c => c ≠ '\n')).length : Int) + 1
  (line, column)

/-- Translation of `Mark::line()`: 0 when the document is gone, otherwise the
converted line. -/
def Mark.line (m : Mark) : Int :=
  match m.editor with
  | none => 0
  | some doc => (convertPosition doc m.pos).1

/-- Translation of `Mark::column()`: 0 when the document is gone, otherwise
the converted column. -/
def Mark.column (m : Mark) : Int :=
  match m.editor with
  | none => 0
  | some doc => (convertPosition doc m.pos).2

/-- Translation of `Mark::restore()`: if the document still exists, it asks
the editor to go to the mark (modelled as the resulting goto action);
otherwise it is a no-op (`none`) that only logs that the document is gone. -/
def Mark.restore (m : Mark) : Option (TextDocument × Int) :=
  match m.editor with
  | none => none
  | some doc => some (doc, m.pos)

/-- Translation of `Mark::update(int from, int charsRemoved, int charsAdded)`,
verbatim from `mark.cpp` lines 96-108: positions at or before the edit start
are unchanged; positions inside the removed span collapse to the edit start;
positions after the removed span shift by the net delta. -/
def Mark.update (m : Mark) (start charsRemoved charsAdded : Int) : Mark :=
  if m.pos ≤ start then m
  else
    let delta := charsAdded - charsRemoved
    if m.pos ≤ start + charsRemoved then { m with pos := start }
    else { m with pos := m.pos + delta }

/-- A mark whose owning document has been destroyed, still holding offset 5. -/
def deadMark : Mark :=
  { editor := none, pos := 5 }

end Knut

namespace Knut.TS

/-- Source text a tree was parsed from, as a character sequence. -/
abbrev Source := List Char

/-- Modelled from the spec: a tree node of the treesitter wrapper (the
`Tree`/`Node` classes are not among the shown sources). A node carries its
kind, the field name it occupies in its parent (if any), its range
`[start, stop)` into the source, and its ordered named children. -/
inductive Node where
  | mk (kind : String) (fieldName : Option String) (start stop : Nat)
      (children : List Node)

/-- The kind tag of a node. -/
def Node.kind : Node → String
  | .mk k _ _ _ _ => k

/-- The field name a node occupies in its parent, if any. -/
def Node.fieldName : Node → Option String
  | .mk _ f _ _ _ => f

/-- The start offset of a node. -/
def Node.start : Node → Nat
  | .mk _ _ a _ _ => a

/-- The end offset (exclusive) of a node. -/
def Node.stop : Node → Nat
  | .mk _ _ _ b _ => b

/-- The ordered named children of a node. -/
def Node.children : Node → List Node
  | .mk _ _ _ _ cs => cs

/-- Modelled from the spec: `Node::textIn(source)` extracts the text a node
spans in the source it was parsed from. -/
def Node.textIn (n : Node) (src : Source) : String :=
  ((src.drop n.start).take (n.stop - n.start)).asString

/-- Pre-order, leftmost-first enumeration of a tree, as the spec prescribes
for match ordering. The first argument bounds the recursion depth; it is
always instantiated above the height of the tree at hand, so it never cuts
the walk short in this development. -/
def Node.preorder : Nat → Node → List Node
  | 0, _ => []
  | depth + 1, n => n :: n.children.flatMap (Node.preorder depth)

/-- Modelled from the spec: one structural sub-pattern of the query language.
`node none cs` is the wildcard `(_)` with child constraints `cs`; `node (some
k) cs` is a named node matcher; `anon lit` is a quoted literal token. Each
child constraint is `(field name, capture name, sub-pattern)`, both optional.
Quantifiers lie outside the fragment the claims need. -/
inductive Pat where
  | anon (lit : String)
  | node (kind : Option String) (children : List (Option String × Option String × Pat))

/-- Modelled from the spec: one predicate argument, a capture reference or a
quoted literal. -/
inductive PArg where
  | capture (name : String)
  | literal (s : String)
deriving DecidableEq, Repr

/-- Modelled from the spec: a predicate clause, a name with ordered arguments. -/
structure Predicate where
  name : String
  arguments : List PArg
deriving DecidableEq, Repr

/-- Modelled from the spec: one top-level pattern alternative of a compiled
query: its structural pattern, the optional capture on the whole alternative,
and its ordered predicate clauses. -/
structure Pattern where
  root : Pat
  rootCapture : Option String
  predicates : List Predicate

/-- Modelled from the spec: a compiled, immutable query: the full capture
name list in declaration order and the ordered pattern alternatives. -/
structure Query where
  captures : List String
  patterns : List Pattern

/-- Modelled from the spec: one match: the index of the pattern alternative
that matched and the ordered capture bindings (a name may repeat under
quantifiers; none of the patterns here are quantified). -/
structure QMatch where
  patternIndex : Nat
  captures : List (String × Node)

/-- The bindings of a match carrying a given capture name, in order,
mirroring `QueryMatch::capturesNamed`. -/
def QMatch.capturesNamed (m : QMatch) (name : String) : List (String × Node) :=
  m.captures.filter (fun b => b.1 = name)

/-- Does a node satisfy an optional field constraint? -/
def fieldOk (f : Option String) (n : Node) : Bool :=
  match f with
  | none => true
  | some fn => n.fieldName = some fn

/-- The binding contributed by an optional capture name on a node. -/
def capBind (cap : Option String) (n : Node) : List (String × Node) :=
  match cap with
  | none => []
  | some c => [(c, n)]

mutual

/-- Modelled from the spec: does a structural pattern match a node, and with
which capture bindings (in tree pre-order)? Child constraints match an ordered
subsequence of the children of the node. The first argument bounds the
recursion depth and is always instantiated above the combined size of the
pattern and tree at hand. -/
def matchPat : Nat → Pat → Node → Option (List (String × Node))
  | 0, _, _ => none
  | _ + 1, .anon lit, n =>
      if n.kind = lit then some [] else none
  | depth + 1, .node ok cs, n =>
      let kindOk := match ok with
        | none => true
        | some k => n.kind = k
      if kindOk then matchChildConstraints depth cs n.children else none

/-- Match an ordered list of child constraints against an ordered subsequence
of the children of a node, collecting capture bindings. -/
def matchChildConstraints :
    Nat → List (Option String × Option String × Pat) → List Node →
      Option (List (String × Node))
  | 0, _, _ => none
  | _ + 1, [], _ => some []
  | _ + 1, _ :: _, [] => none
  | depth + 1, (f, cap, p) :: cs, n :: ns =>
      let tryHere :=
        if fieldOk f n then
          match matchPat depth p n with
          | some binds =>
              match matchChildConstraints depth cs ns with
              | some rest => some (capBind cap n ++ binds ++ rest)
              | none => none
          | none => none
        else none
      match tryHere with
      | some r => some r
      | none => matchChildConstraints depth ((f, cap, p) :: cs) ns

end

/-- Recursion-depth bound used for the concrete trees and patterns of this
development; all of them are far smaller. -/
def matchDepth : Nat := 64

/-- Modelled from the spec: the structural matches of a query below a root
node, enumerated in the deterministic order of a pre-order, leftmost-first
walk, pattern alternatives in order at each node. Predicates are not
consulted here. -/
def structuralMatches (q : Query) (root : Node) : List QMatch :=
  (Node.preorder matchDepth root).flatMap fun n =>
    q.patterns.enum.filterMap fun ip =>
      (matchPat matchDepth ip.2.root n).map fun binds =>
        QMatch.mk ip.1 (capBind ip.2.rootCapture n ++ binds)

/-- Modelled from the spec: the optional predicate evaluator capability handed
to a cursor; it decides a predicate clause against the capture bindings of a
candidate match. -/
structure Evaluator where
  eval : Predicate → List (String × Node) → Bool

/-- Does a match pass every predicate of its pattern under an evaluator? -/
def matchPasses (preds : List Predicate) (e : Evaluator) (m : QMatch) : Bool :=
  preds.all fun p => e.eval p m.captures

/-- The predicate list of the pattern alternative with a given index. -/
def predsOfQuery (q : Query) (i : Nat) : List Predicate :=
  ((q.patterns.get? i).map Pattern.predicates).getD []

/-- Modelled from the spec: a query cursor: the structural matches not yet
consumed, the predicate lists per pattern index, and the optional evaluator. -/
structure Cursor where
  pending : List QMatch
  predsOf : Nat → List Predicate
  evaluator : Option Evaluator

/-- One step of lazy match production: pop the first pending match that the
evaluator accepts (with no evaluator, predicates are not consulted at all),
returning it and the remaining pending list. -/
def nextFrom (predsOf : Nat → List Predicate) (ev : Option Evaluator) :
    List QMatch → Option (QMatch × List QMatch)
  | [] => none
  | m :: rest =>
      match ev with
      | none => some (m, rest)
      | some e =>
          if matchPasses (predsOf m.patternIndex) e m then some (m, rest)
          else nextFrom predsOf (some e) rest

/-- Modelled from the spec: `QueryCursor::execute` readies a cursor over the
structural matches of the query below the root. -/
def QueryCursor.execute (q : Query) (root : Node) (ev : Option Evaluator) : Cursor :=
  { pending := structuralMatches q root
    predsOf := predsOfQuery q
    evaluator := ev }

/-- Modelled from the spec: `Cursor::nextMatch` produces matches lazily, one
at a time, silently skipping matches the evaluator rejects. -/
def Cursor.nextMatch (c : Cursor) : Option (QMatch × Cursor) :=
  (nextFrom c.predsOf c.evaluator c.pending).map fun p =>
    (p.1, { c with pending := p.2 })

/-- Eager draining of a pending list by repeated `nextFrom` steps, bounded by
an upper bound on the number of steps (each step consumes at least one
pending match, so the length of the list suffices). -/
def drainAux (predsOf : Nat → List Predicate) (ev : Option Evaluator) :
    Nat → List QMatch → List QMatch
  | 0, _ => []
  | steps + 1, pending =>
      match nextFrom predsOf ev pending with
      | none => []
      | some (m, rest) => m :: drainAux predsOf ev steps rest

/-- Modelled from the spec: `Cursor::allRemainingMatches` drains the rest of
the matches eagerly by iterating `nextMatch`. -/
def Cursor.allRemainingMatches (c : Cursor) : List QMatch :=
  drainAux c.predsOf c.evaluator c.pending.length c.pending

end Knut.TS

namespace Knut.TS

/-- Modelled from the spec: the regular expressions a `match?` predicate may
carry, in the fragment the claims use: the empty word, a single character,
concatenation and alternation (a parenthesised optional group `(...)?` is
encoded as an alternation with the empty word). -/
inductive RE where
  | eps
  | chr (c : Char)
  | cat (a b : RE)
  | alt (a b : RE)

/-- Continuation-style matcher: does some prefix of `s` match `re`, with the
remainder accepted by `k`? -/
def matchRE : RE → List Char → (List Char → Bool) → Bool
  | .eps, s, k => k s
  | .chr c, s, k =>
      match s with
      | [] => false
      | x :: xs => x = c && k xs
  | .cat a b, s, k => matchRE a s fun s1 => matchRE b s1 k
  | .alt a b, s, k => matchRE a s k || matchRE b s k

/-- Search semantics, as a `QRegularExpression` match: true iff the expression
matches starting at some position of the text. -/
def reSearch (re : RE) (s : List Char) : Bool :=
  s.tails.any fun suffixChars => matchRE re suffixChars fun _ => true

/-- Concatenation of a reversed sequence of regular expressions. -/
def catAll (rs : List RE) : RE :=
  rs.reverse.foldr RE.cat RE.eps

/-- Characters the regex compiler of this model treats as unsupported
metacharacters; a literal containing one fails to compile as a regex. -/
def reMeta (c : Char) : Bool :=
  c = '[' || c = ']' || c = '*' || c = '+' || c = '|' || c = '\\' ||
    c = '.' || c = '^' || c = '$' || c = '\x7b' || c = '\x7d'

/-- Modelled from the spec: compilation of a regex literal at query-compile
time (the real engine delegates to `QRegularExpression`). `cur` is the
reversed sequence of items of the current group, `stack` the enclosing
groups; the depth bound is instantiated above the literal length. -/
def parseREAux : Nat → List Char → List RE → List (List RE) → Option RE
  | _, [], cur, [] => some (catAll cur)
  | _, [], _, _ :: _ => none
  | 0, _ :: _, _, _ => none
  | depth + 1, c :: rest, cur, stack =>
      if c = '(' then parseREAux depth rest [] (cur :: stack)
      else if c = ')' then
        match stack with
        | [] => none
        | top :: stack1 => parseREAux depth rest (catAll cur :: top) stack1
      else if c = '?' then
        match cur with
        | [] => none
        | r :: cur1 => parseREAux depth rest (RE.alt r RE.eps :: cur1) stack
      else if reMeta c then none
      else parseREAux depth rest (RE.chr c :: cur) stack

/-- Compile a regex literal, or fail on syntax this model does not support. -/
def parseRE (s : String) : Option RE :=
  parseREAux (s.length + 1) s.toList [] []

/-- Resolve a predicate argument to text: a literal is itself, a capture
resolves to the source text of its bound node. -/
def resolveText (src : Source) (binds : List (String × Node)) : PArg → Option String
  | .literal s => some s
  | .capture c => ((binds.find? fun b => b.1 = c).map fun b => b.2.textIn src)

/-- Modelled from the spec: the `eq?` predicate: two arguments, true iff the
two resolved texts are identical. -/
def evalEq (src : Source) (binds : List (String × Node)) : List PArg → Bool
  | [a, b] =>
      match resolveText src binds a, resolveText src binds b with
      | some ta, some tb => ta = tb
      | _, _ => false
  | _ => false

/-- Modelled from the spec: the `match?` predicate: a literal regex (validated
at query-compile time) and a capture, true iff the captured text matches the
regex as a search. -/
def evalMatchPred (src : Source) (binds : List (String × Node)) : List PArg → Bool
  | [.literal rx, .capture c] =>
      match parseRE rx, (binds.find? fun b => b.1 = c) with
      | some re, some b => reSearch re (b.2.textIn src).toList
      | _, _ => false
  | _ => false

/-- The start offsets of every occurrence of `pat` in the suffix of the source
beginning at offset `i`; the depth bound is instantiated above the source
length. -/
def occurrencesAux (pat : List Char) : Nat → Nat → List Char → List Nat
  | _, _, [] => []
  | 0, _, _ :: _ => []
  | depth + 1, i, c :: cs =>
      if pat.isPrefixOf (c :: cs) then i :: occurrencesAux pat depth (i + 1) cs
      else occurrencesAux pat depth (i + 1) cs

/-- The start offsets of every occurrence of `pat` in `src`. -/
def occurrences (pat : List Char) (src : Source) : List Nat :=
  occurrencesAux pat (src.length + 1) 0 src

/-- Modelled from the spec: the contextual `in_message_map?` predicate: two
captures, true iff the first captured node lexically occurs inside a
recognized registration-table construct of the source, located by scanning
for the enclosing BEGIN_MESSAGE_MAP / END_MESSAGE_MAP markers. -/
def evalInMessageMap (src : Source) (binds : List (String × Node)) : List PArg → Bool
  | [.capture a, .capture _] =>
      match binds.find? fun b => b.1 = a with
      | none => false
      | some b =>
          let begins := occurrences "BEGIN_MESSAGE_MAP".toList src
          let finishes := occurrences "END_MESSAGE_MAP".toList src
          begins.any fun s =>
            finishes.any fun e => decide (s ≤ b.2.start) && decide (b.2.stop ≤ e)
  | _ => false

/-- Modelled from the spec: the predicate evaluator over a source text,
implementing exactly the three-kind vocabulary; an unknown name evaluates to
false (it is already rejected at query-compile time). -/
def Predicates (src : Source) : Evaluator :=
  ⟨fun p binds =>
    if p.name = "eq?" then evalEq src binds p.arguments
    else if p.name = "match?" then evalMatchPred src binds p.arguments
    else if p.name = "in_message_map?" then evalInMessageMap src binds p.arguments
    else false⟩

end Knut.TS

namespace Knut.TS

/-- The six mutually exclusive query-compilation error kinds of the spec. -/
inductive QueryError where
  | SyntaxError
  | InvalidNodeType
  | InvalidField
  | StructureError
  | CaptureError
  | PredicateError
deriving DecidableEq, Repr

/-- Characters an identifier of the pattern language (and of the modelled C++
sources) may contain. -/
def identChar (c : Char) : Bool :=
  c.isAlpha || c.isDigit || c = '_'

/-- Characters a predicate name may contain (identifiers plus the trailing
question mark). -/
def predNameChar (c : Char) : Bool :=
  identChar c || c = '?'

/-- Whitespace of the pattern language. -/
def wsChar (c : Char) : Bool :=
  c = ' ' || c = '\n' || c = '\t' || c = '\r'

/-- Tokens of the pattern language: parentheses, quoted literals, `@capture`,
`#predicate?`, `field:` names and plain identifiers. -/
inductive Tok where
  | lparen
  | rparen
  | str (s : String)
  | cap (name : String)
  | predName (name : String)
  | fieldTok (name : String)
  | ident (name : String)
deriving DecidableEq, Repr

/-- Modelled from the spec: tokenization of the pattern text; `none` is a
syntax error (stray character or unterminated literal). The depth bound is
instantiated above the text length, and each step consumes at least one
character, so it never cuts tokenization short. -/
def lexAux : Nat → List Char → Option (List Tok)
  | _, [] => some []
  | 0, _ :: _ => none
  | depth + 1, c :: cs =>
    if wsChar c then lexAux depth cs
    else if c = '(' then (lexAux depth cs).map fun ts => Tok.lparen :: ts
    else if c = ')' then (lexAux depth cs).map fun ts => Tok.rparen :: ts
    else if c = '"' then
      let body := cs.takeWhile fun d => d ≠ '"'
      match cs.drop body.length with
      | '"' :: rest1 => (lexAux depth rest1).map fun ts => Tok.str body.asString :: ts
      | _ => none
    else if c = '@' then
      let name := cs.takeWhile identChar
      if name.isEmpty then none
      else (lexAux depth (cs.drop name.length)).map fun ts => Tok.cap name.asString :: ts
    else if c = '#' then
      let name := cs.takeWhile predNameChar
      if name.isEmpty then none
      else (lexAux depth (cs.drop name.length)).map fun ts => Tok.predName name.asString :: ts
    else if identChar c then
      let name := (c :: cs).takeWhile identChar
      match (c :: cs).drop name.length with
      | ':' :: rest1 => (lexAux depth rest1).map fun ts => Tok.fieldTok name.asString :: ts
      | rest1 => (lexAux depth rest1).map fun ts => Tok.ident name.asString :: ts
    else none

/-- Tokenize a whole pattern text. -/
def lexQuery (s : String) : Option (List Tok) :=
  lexAux (s.length + 1) s.toList

/-- An s-expression of the pattern language: an atom or a parenthesised group. -/
inductive SExpr where
  | atom (t : Tok)
  | group (es : List SExpr)

/-- Parse a token sequence into sibling s-expressions, stopping before an
unmatched closing parenthesis; `none` is a syntax error (unbalanced groups).
The depth bound is instantiated above the token count. -/
def parseSExprs : Nat → List Tok → Option (List SExpr × List Tok)
  | _, [] => some ([], [])
  | 0, _ :: _ => none
  | depth + 1, t :: ts =>
    match t with
    | .rparen => some ([], t :: ts)
    | .lparen =>
      match parseSExprs depth ts with
      | some (inner, rest) =>
        match rest with
        | .rparen :: rest1 =>
          match parseSExprs depth rest1 with
          | some (siblings, rest2) => some (SExpr.group inner :: siblings, rest2)
          | none => none
        | _ => none
      | none => none
    | tok =>
      match parseSExprs depth ts with
      | some (siblings, rest) => some (SExpr.atom tok :: siblings, rest)
      | none => none

/-- Lex and parse a pattern text into its top-level s-expressions; `none` is a
syntax error. -/
def parseQueryText (s : String) : Option (List SExpr) :=
  match lexQuery s with
  | none => none
  | some toks =>
    match parseSExprs (toks.length + 1) toks with
    | some (es, []) => some es
    | _ => none

/-- Interpret predicate-clause arguments: captures and quoted literals. -/
def interpretPredArgs : List SExpr → Except QueryError (List PArg)
  | [] => .ok []
  | .atom (.cap c) :: rest =>
    match interpretPredArgs rest with
    | .ok as => .ok (PArg.capture c :: as)
    | .error er => .error er
  | .atom (.str s) :: rest =>
    match interpretPredArgs rest with
    | .ok as => .ok (PArg.literal s :: as)
    | .error er => .error er
  | _ => .error .SyntaxError

/-- Modelled from the spec: interpret a sibling sequence of s-expressions as
child constraints plus hoisted predicate clauses. A `field:` token applies to
the next structural sibling; a `@capture` token applies to the structural
sibling just before it; a `(#name? ...)` group is a predicate clause of the
enclosing alternative. Forms outside the fragment the claims need (anchors,
quantifiers, grouped alternations) are syntax errors here. The depth bound is
instantiated above the element count. -/
def interpretSeq :
    Nat → Option String → List SExpr →
      Except QueryError (List (Option String × Option String × Pat) × List Predicate)
  | _, none, [] => .ok ([], [])
  | _, some _, [] => .error .SyntaxError
  | 0, _, _ :: _ => .error .SyntaxError
  | depth + 1, pendingField, e :: es =>
    match e with
    | .atom (.fieldTok f) =>
      match pendingField with
      | some _ => .error .SyntaxError
      | none => interpretSeq depth (some f) es
    | .atom (.str s) =>
      let (cap, es1) := match es with
        | .atom (.cap c) :: tail => (some c, tail)
        | _ => (none, es)
      match interpretSeq depth none es1 with
      | .ok (cs, preds) => .ok ((pendingField, cap, Pat.anon s) :: cs, preds)
      | .error er => .error er
    | .group (.atom (.predName pname) :: args) =>
      match interpretPredArgs args with
      | .ok pargs =>
        match interpretSeq depth pendingField es with
        | .ok (cs, preds) => .ok (cs, Predicate.mk pname pargs :: preds)
        | .error er => .error er
      | .error er => .error er
    | .group (.atom (.ident kname) :: kids) =>
      match interpretSeq depth none kids with
      | .ok (kcs, kpreds) =>
        let pat := Pat.node (if kname = "_" then none else some kname) kcs
        let (cap, es1) := match es with
          | .atom (.cap c) :: tail => (some c, tail)
          | _ => (none, es)
        match interpretSeq depth none es1 with
        | .ok (cs, preds) => .ok ((pendingField, cap, pat) :: cs, kpreds ++ preds)
        | .error er => .error er
      | .error er => .error er
    | _ => .error .SyntaxError

/-- Capture names declared by binding sites, in order of appearance; capture
references inside predicate clauses are uses, not declarations. The depth
bound is instantiated above the element count. -/
def declaredCaptures : Nat → List SExpr → List String
  | _, [] => []
  | 0, _ :: _ => []
  | depth + 1, e :: es =>
    match e with
    | .atom (.cap c) => c :: declaredCaptures depth es
    | .group (.atom (.predName _) :: _) => declaredCaptures depth es
    | .group inner => declaredCaptures depth inner ++ declaredCaptures depth es
    | _ => declaredCaptures depth es

/-- Modelled from the spec: the external grammar capability, restricted to
what compilation consults: the node kinds that exist, the field names each
node kind supports, and the literal tokens that can occur inside each node
kind (a literal possible nowhere in a kind is structurally impossible). -/
structure Grammar where
  nodeTypes : List String
  nodeFields : List (String × List String)
  nodeTokens : List (String × List String)

/-- The field names a node kind supports. -/
def Grammar.fieldsOf (g : Grammar) (k : String) : List String :=
  (((g.nodeFields.find? fun p => p.1 = k).map fun p => p.2).getD [])

/-- The literal tokens that can occur inside a node kind. -/
def Grammar.tokensOf (g : Grammar) (k : String) : List String :=
  (((g.nodeTokens.find? fun p => p.1 = k).map fun p => p.2).getD [])

/-- Phase 2 of compilation: every referenced node kind must exist in the
grammar. The worklist visits every sub-pattern; the depth bound is
instantiated above the pattern size. -/
def checkNodeTypes (g : Grammar) : Nat → List Pat → Except QueryError Unit
  | _, [] => .ok ()
  | 0, _ :: _ => .error .SyntaxError
  | depth + 1, p :: ps =>
    match p with
    | .anon _ => checkNodeTypes g depth ps
    | .node ok cs =>
      let kindFine := match ok with
        | none => true
        | some k => g.nodeTypes.contains k
      if kindFine then checkNodeTypes g depth ((cs.map fun c => c.2.2) ++ ps)
      else .error .InvalidNodeType

/-- Phase 3 of compilation: every field constraint must name a field the
enclosing node kind supports (a wildcard parent is unconstrained). -/
def checkFields (g : Grammar) : Nat → List Pat → Except QueryError Unit
  | _, [] => .ok ()
  | 0, _ :: _ => .error .SyntaxError
  | depth + 1, p :: ps =>
    match p with
    | .anon _ => checkFields g depth ps
    | .node ok cs =>
      let fieldsFine := match ok with
        | none => true
        | some k => cs.all fun c =>
            match c.1 with
            | none => true
            | some f => (g.fieldsOf k).contains f
      if fieldsFine then checkFields g depth ((cs.map fun c => c.2.2) ++ ps)
      else .error .InvalidField

/-- Phase 4 of compilation: every literal token constraint must be a token
that can occur inside the enclosing node kind. -/
def checkStructure (g : Grammar) : Nat → List Pat → Except QueryError Unit
  | _, [] => .ok ()
  | 0, _ :: _ => .error .SyntaxError
  | depth + 1, p :: ps =>
    match p with
    | .anon _ => checkStructure g depth ps
    | .node ok cs =>
      let tokensFine := match ok with
        | none => true
        | some k => cs.all fun c =>
            match c.2.2 with
            | .anon lit => (g.tokensOf k).contains lit
            | .node _ _ => true
      if tokensFine then checkStructure g depth ((cs.map fun c => c.2.2) ++ ps)
      else .error .StructureError

/-- Phase 5 of compilation: every capture referenced by a predicate must be
declared by a binding site, and `eq?` must not compare a capture to itself. -/
def checkCaptures (declared : List String) (preds : List Predicate) :
    Except QueryError Unit :=
  let unbound := preds.any fun p =>
    p.arguments.any fun a =>
      match a with
      | .capture c => !(declared.contains c)
      | .literal _ => false
  let selfCompare := preds.any fun p =>
    p.name = "eq?" &&
      match p.arguments with
      | [.capture a, .capture b] => a = b
      | _ => false
  if unbound || selfCompare then .error .CaptureError else .ok ()

/-- Phase 6 of compilation: the predicate name must be in the recognized
vocabulary with arguments of the right number and kind, and a `match?` regex
literal must compile. -/
def checkPredicates (preds : List Predicate) : Except QueryError Unit :=
  let fine := preds.all fun p =>
    if p.name = "eq?" then p.arguments.length = 2
    else if p.name = "match?" then
      match p.arguments with
      | [.literal rx, .capture _] => (parseRE rx).isSome
      | _ => false
    else if p.name = "in_message_map?" then
      match p.arguments with
      | [.capture _, .capture _] => true
      | _ => false
    else false
  if fine then .ok () else .error .PredicateError

/-- Modelled from the spec: `Query` compilation: parse the pattern text, build
the pattern alternatives, then validate in the conceptual order SyntaxError,
InvalidNodeType, InvalidField, StructureError, CaptureError, PredicateError,
failing with the first applicable kind. The queries compiled in this
development have a single alternative, so the hoisted predicate clauses all
belong to it. -/
def compileQuery (g : Grammar) (text : String) : Except QueryError Query :=
  match parseQueryText text with
  | none => .error .SyntaxError
  | some es =>
    match interpretSeq (text.length + 1) none es with
    | .error er => .error er
    | .ok (children, preds) =>
      let pats : List Pattern :=
        match children with
        | [] => [Pattern.mk (Pat.node none []) none preds]
        | cs => cs.map fun c => Pattern.mk c.2.2 c.2.1 preds
      let roots := pats.map Pattern.root
      match checkNodeTypes g (text.length + 1) roots with
      | .error er => .error er
      | .ok _ =>
        match checkFields g (text.length + 1) roots with
        | .error er => .error er
        | .ok _ =>
          match checkStructure g (text.length + 1) roots with
          | .error er => .error er
          | .ok _ =>
            let declared := declaredCaptures (text.length + 1) es
            match checkCaptures declared preds with
            | .error er => .error er
            | .ok _ =>
              match checkPredicates preds with
              | .error er => .error er
              | .ok _ => .ok (Query.mk declared pats)

end Knut.TS

namespace Knut.TS

/-- Modelled from the spec: the fragment of the external C++ grammar
capability that the patterns of this development consult. `field_expression`
has the fields `argument` and `field` (not `arg`) and can contain the tokens
`.` and `->` but not `*` (a star between argument and field is structurally
impossible there). -/
def cppGrammar : Grammar :=
  { nodeTypes :=
      ["translation_unit", "function_definition", "function_declarator",
       "field_expression", "parameter_list", "parameter_declaration",
       "identifier", "primitive_type", "compound_statement",
       "call_expression", "argument_list"]
    nodeFields :=
      [("field_expression", ["argument", "field"]),
       ("function_declarator", ["declarator", "parameters"]),
       ("function_definition", ["type", "declarator", "body"]),
       ("call_expression", ["function", "arguments"])]
    nodeTokens :=
      [("field_expression", [".", "->"]),
       ("parameter_list", ["(", ")", ","])] }

/-- The test source: three functions, two of them named with the
`my...FreeFunction` scheme and one named `main`. -/
def mainSrc : Source :=
  ("void myFreeFunction() \x7b\x7d\nvoid myOtherFreeFunction() \x7b\x7d\nint main() \x7b\x7d\n").toList

/-- The parse tree of `mainSrc`, as tree-sitter-cpp shapes it: a translation
unit of three function definitions, each with a typed declarator whose
`declarator` field is the function name identifier. -/
def mainTree : Node :=
  .mk "translation_unit" none 0 69
    [.mk "function_definition" none 0 24
      [.mk "primitive_type" (some "type") 0 4 [],
       .mk "function_declarator" (some "declarator") 5 21
         [.mk "identifier" (some "declarator") 5 19 [],
          .mk "parameter_list" (some "parameters") 19 21 []],
       .mk "compound_statement" (some "body") 22 24 []],
     .mk "function_definition" none 25 54
      [.mk "primitive_type" (some "type") 25 29 [],
       .mk "function_declarator" (some "declarator") 30 51
         [.mk "identifier" (some "declarator") 30 49 [],
          .mk "parameter_list" (some "parameters") 49 51 []],
       .mk "compound_statement" (some "body") 52 54 []],
     .mk "function_definition" none 55 68
      [.mk "primitive_type" (some "type") 55 58 [],
       .mk "function_declarator" (some "declarator") 59 65
         [.mk "identifier" (some "declarator") 59 63 [],
          .mk "parameter_list" (some "parameters") 63 65 []],
       .mk "compound_statement" (some "body") 66 68 []]]

/-- The pattern text of the `match?` predicate query. -/
def matchQueryText : String :=
  "(function_definition (function_declarator declarator: (_) @name (#match? \"my(Other)?FreeFunction\" @name)))"

/-- The pattern text of the `eq?` predicate query. -/
def eqQueryText : String :=
  "(function_definition (function_declarator declarator: (_) @name (#eq? \"main\" @name)))"

/-- Compile a query text against the C++ grammar, execute it on `mainTree`
under the `Predicates` evaluator over `mainSrc`, and report, per match in
order, the source texts bound to the `@name` capture; `none` if compilation
fails. -/
def queryNameTexts (text : String) : Option (List (List String)) :=
  match compileQuery cppGrammar text with
  | .error _ => none
  | .ok q =>
    some (((QueryCursor.execute q mainTree (some (Predicates mainSrc))).allRemainingMatches).map
      fun m => (m.capturesNamed "name").map fun b => b.2.textIn mainSrc)

/-- The error kind a compilation fails with, if it fails. -/
def compileErrorOf (g : Grammar) (text : String) : Option QueryError :=
  match compileQuery g text with
  | .error e => some e
  | .ok _ => none

/-- The two failure kinds of `Transformation::run`. -/
inductive TError where
  | MissingWholeMatchCapture
  | NonConvergent
deriving DecidableEq, Repr

/-- Modelled from the spec: one match of a transformation pass: the byte range
of the whole-match capture (absent when the pattern binds none) and the texts
bound to the captures the rewrite template may reference. -/
structure TMatch where
  whole : Option (Nat × Nat)
  bindings : List (String × String)
deriving DecidableEq, Repr

deriving instance DecidableEq for Except

/-- Modelled from the spec: substitute every `@name` capture placeholder of
the rewrite template with the bound text, copying unplaced text through
unchanged. The depth bound is instantiated above the template length. -/
def substTemplateAux (binds : List (String × String)) : Nat → List Char → List Char
  | _, [] => []
  | 0, _ :: _ => []
  | depth + 1, c :: cs =>
    if c = '@' then
      let name := cs.takeWhile identChar
      if name.isEmpty then c :: substTemplateAux binds depth cs
      else
        ((((binds.find? fun b => b.1 = name.asString).map fun b => b.2).getD "").toList)
          ++ substTemplateAux binds depth (cs.drop name.length)
    else c :: substTemplateAux binds depth cs

/-- Substitute the capture placeholders of a template. -/
def substTemplate (tmpl : String) (binds : List (String × String)) : List Char :=
  substTemplateAux binds (tmpl.length + 1) tmpl.toList

/-- Modelled from the spec: replace every whole-match span by its substituted
template, keeping every byte outside the spans unchanged. `i` is the offset
already emitted; matches must be in ascending order of disjoint spans, as the
match enumeration produces them (the C++ code applies them rightmost first,
which yields the same text). -/
def applyMatchesGo (src : Source) (tmpl : String) : Nat → List TMatch → List Char
  | i, [] => src.drop i
  | i, m :: rest =>
    match m.whole with
    | none => applyMatchesGo src tmpl i rest
    | some (s, e) =>
      (src.drop i).take (s - i) ++ substTemplate tmpl m.bindings
        ++ applyMatchesGo src tmpl e rest

/-- Apply all matches of one pass to the source. -/
def applyMatches (src : Source) (tmpl : String) (ms : List TMatch) : List Char :=
  applyMatchesGo src tmpl 0 ms

/-- Modelled from the spec: the pass loop of `Transformation::run`: find the
matches of the current text; none left is success; a match without the
whole-match capture is `MissingWholeMatchCapture`; otherwise rewrite and
repeat, failing with `NonConvergent` when the pass bound is exhausted with
matches still being found. -/
def runPasses (matcher : Source → List TMatch) (tmpl : String) :
    Nat → Source → Except TError Source
  | fuel, src =>
    let ms := matcher src
    if ms.isEmpty then .ok src
    else if ms.any fun m => m.whole.isNone then .error .MissingWholeMatchCapture
    else
      match fuel with
      | 0 => .error .NonConvergent
      | fuel + 1 => runPasses matcher tmpl fuel (applyMatches src tmpl ms)

/-- The fixed maximum number of rewrite passes of `Transformation::run`. -/
def maxPasses : Nat := 10

/-- Modelled from the spec: a transformation owns the source snapshot, the
match-finding stage (parser plus compiled query plus predicate evaluator,
abstracted as one total function from the current text to the matches of a
pass) and the rewrite template. -/
structure Transformation where
  source : Source
  matcher : Source → List TMatch
  template : String

/-- Modelled from the spec: `Transformation::run`, the bounded fixed-point
rewrite loop. -/
def Transformation.run (t : Transformation) : Except TError Source :=
  runPasses t.matcher t.template maxPasses t.source

/-- Modelled from the spec: the matches of the member-access query
`(field_expression argument "." field) @from` on flat text: a maximal
identifier, a dot and a maximal identifier, in source order, each binding
`arg` and `field` and its whole span. The depth bound is instantiated above
the source length. -/
def dotGo : Nat → Nat → List Char → List TMatch
  | _, _, [] => []
  | 0, _, _ :: _ => []
  | depth + 1, i, c :: cs =>
    if identChar c then
      let run1 := (c :: cs).takeWhile identChar
      match (c :: cs).drop run1.length with
      | '.' :: rest2 =>
        let run2 := rest2.takeWhile identChar
        if run2.isEmpty then dotGo depth (i + run1.length + 1) rest2
        else
          let stop := i + run1.length + 1 + run2.length
          TMatch.mk (some (i, stop)) [("arg", run1.asString), ("field", run2.asString)]
            :: dotGo depth stop (rest2.drop run2.length)
      | rest1 => dotGo depth (i + run1.length) rest1
    else dotGo depth (i + 1) cs

/-- The member-access matcher over a whole source. -/
def dotMatcher (src : Source) : List TMatch :=
  dotGo (src.length + 1) 0 src

/-- The rewrite template of the member-access transformation. -/
def arrowTemplate : String := "@arg->@field"

/-- The `.`-to-`->` member-access transformation on a source text. -/
def memberAccessTransform (src : Source) : Except TError Source :=
  (Transformation.mk src dotMatcher arrowTemplate).run

/-- A matcher whose pattern binds no whole-match capture: every match carries
no span to replace. -/
def noWholeMatcher : Source → List TMatch :=
  fun _ => [TMatch.mk none [("arg", "a"), ("field", "b")]]

/-- A matcher that keeps matching the output of its own rewrite: it finds a
(whole-capture) match on every text. -/
def loopMatcher : Source → List TMatch :=
  fun _ => [TMatch.mk (some (0, 0)) []]

end Knut.TS

namespace Knut

/-- C1: complete case analysis of `Mark::update` for an anchor at offset `p`
and an edit notification `(start, removed, inserted)` with a non-negative
removed length: if `start > p` the offset is unchanged; if
`start ≤ p ≤ start + removed` the offset becomes `start`; if
`p > start + removed` the offset becomes `p + inserted - removed`. -/
theorem mark_update_case_analysis (m : Mark) (start removed inserted : Int)
    (hrem : 0 ≤ removed) :
    (start > m.pos → (m.update start removed inserted).pos = m.pos) ∧
    (start ≤ m.pos → m.pos ≤ start + removed →
      (m.update start removed inserted).pos = start) ∧
    (m.pos > start + removed →
      (m.update start removed inserted).pos = m.pos + inserted - removed) := by
  refine ⟨fun h => ?_, fun h1 h2 => ?_, fun h => ?_⟩ <;>
    simp only [Mark.update] <;> split_ifs <;> (try simp) <;> omega

theorem mark_update_case_analysis_witness :
    (0 : Int) ≤ 2 ∧ ((Mark.make ⟨[]⟩ 5).update 1 2 7).pos = 5 + 7 - 2 := by
  refine ⟨by decide, ?_⟩
  have h := mark_update_case_analysis (Mark.make ⟨[]⟩ 5) 1 2 7 (by decide)
  exact h.2.2 (by decide)

/-- C2 counterexample: the claim says `position()` returns 0 whenever
`isValid()` is false, but `Mark::position` returns `m_pos` unconditionally:
the dead mark at offset 5 is invalid yet reports position 5, not 0. -/
theorem mark_dead_position_not_zero :
    deadMark.isValid = false ∧ deadMark.position = 5 ∧ deadMark.position ≠ 0 :=
  ⟨rfl, rfl, by decide⟩

/-- C2 (amended): when the owning document no longer exists, `line` and
`column` return zero and `restore` is refused (a no-op that only reports the
document is gone), but `position()` returns the stored offset unchanged,
whatever it is, rather than zero. -/
theorem mark_dead_document_behaviour (m : Mark) (h : m.isValid = false) :
    m.line = 0 ∧ m.column = 0 ∧ m.restore = none ∧ m.position = m.pos := by
  have he : m.editor = none := by
    cases hm : m.editor with
    | none => rfl
    | some d => rw [Mark.isValid, hm] at h; simp at h
  refine ⟨?_, ?_, ?_, rfl⟩ <;> simp [Mark.line, Mark.column, Mark.restore, he]

theorem mark_dead_document_behaviour_witness :
    deadMark.isValid = false ∧
      (deadMark.line = 0 ∧ deadMark.column = 0 ∧ deadMark.restore = none ∧
        deadMark.position = deadMark.pos) :=
  ⟨by decide, mark_dead_document_behaviour deadMark (by decide)⟩

/-- C3: the invariant `0 ≤ offset ≤ len(text)` is preserved by `Mark::update`
under a valid edit notification: if `0 ≤ pos ≤ len` before the edit,
`0 ≤ start`, `start + removed ≤ len` and the removed and inserted lengths are
non-negative, then `0 ≤ pos ≤ len + inserted - removed` afterwards. -/
theorem mark_update_preserves_bounds (m : Mark) (start removed inserted len : Int)
    (hp0 : 0 ≤ m.pos) (hpl : m.pos ≤ len) (hs : 0 ≤ start)
    (hsr : start + removed ≤ len) (hr : 0 ≤ removed) (hi : 0 ≤ inserted) :
    0 ≤ (m.update start removed inserted).pos ∧
      (m.update start removed inserted).pos ≤ len + inserted - removed := by
  simp only [Mark.update]
  split_ifs <;> (try simp) <;> constructor <;> omega

theorem mark_update_preserves_bounds_witness :
    ((0 : Int) ≤ 3 ∧ (3 : Int) ≤ 10 ∧ (0 : Int) ≤ 1 ∧ (1 : Int) + 4 ≤ 10 ∧
      (0 : Int) ≤ 4 ∧ (0 : Int) ≤ 2) ∧
    (0 ≤ ((Mark.make ⟨[]⟩ 3).update 1 4 2).pos ∧
      ((Mark.make ⟨[]⟩ 3).update 1 4 2).pos ≤ 10 + 2 - 4) :=
  ⟨by decide,
    mark_update_preserves_bounds (Mark.make ⟨[]⟩ 3) 1 4 2 10 (by decide) (by decide)
      (by decide) (by decide) (by decide) (by decide)⟩

/-- C10: `Mark` construction performs no validation or clamping: for every
integer `pos`, even negative or past the end of the document text, the freshly
constructed mark is valid and `position()` returns exactly `pos`. -/
theorem mark_construction_no_clamping (editor : TextDocument) (pos : Int) :
    (Mark.make editor pos).position = pos ∧ (Mark.make editor pos).isValid = true :=
  ⟨rfl, rfl⟩

end Knut

namespace Knut.TS

/-- C4: each malformed pattern fails at compile time with its specific error
kind — an unbalanced group with SyntaxError, an unknown node type with
InvalidNodeType, an unknown field with InvalidField, a predicate comparing a
capture to itself with CaptureError, an impossible literal token placement
with StructureError, and an unrecognized predicate name with PredicateError —
and the six kinds are pairwise distinct. -/
theorem query_compile_error_kinds :
    compileErrorOf cppGrammar "(field_expression" = some .SyntaxError ∧
    compileErrorOf cppGrammar "(field_expr)" = some .InvalidNodeType ∧
    compileErrorOf cppGrammar "(field_expression arg: (_))" = some .InvalidField ∧
    compileErrorOf cppGrammar "(field_expression (#eq? @from @from))" = some .CaptureError ∧
    compileErrorOf cppGrammar "(field_expression \"*\")" = some .StructureError ∧
    compileErrorOf cppGrammar "(#non_existing_predicate?)" = some .PredicateError ∧
    List.Pairwise (fun a b => a ≠ b)
      [QueryError.SyntaxError, QueryError.InvalidNodeType, QueryError.InvalidField,
       QueryError.CaptureError, QueryError.StructureError, QueryError.PredicateError] := by
  decide

/-- Draining with no evaluator yields every pending match. -/
theorem drainAux_no_evaluator (po : Nat → List Predicate) :
    ∀ (l : List QMatch) (fuel : Nat), l.length ≤ fuel →
      drainAux po none fuel l = l := by
  intro l
  induction l with
  | nil => intro fuel h; cases fuel <;> simp [drainAux, nextFrom]
  | cons m rest ih =>
    intro fuel h
    cases fuel with
    | zero => simp at h
    | succ f =>
      simp only [drainAux, nextFrom]
      rw [ih f (by simp at h; omega)]

/-- Skipping a failing match does not change the drained sequence. -/
theorem drainAux_skip (po : Nat → List Predicate) (e : Evaluator) (m : QMatch)
    (rest : List QMatch) (f : Nat)
    (h : matchPasses (po m.patternIndex) e m = false) :
    drainAux po (some e) (f + 1) (m :: rest) = drainAux po (some e) (f + 1) rest := by
  simp only [drainAux, nextFrom, h]
  try simp

/-- Draining with an evaluator yields exactly the pending matches that pass
every predicate of their pattern. -/
theorem drainAux_with_evaluator (po : Nat → List Predicate) (e : Evaluator) :
    ∀ (l : List QMatch) (fuel : Nat), l.length ≤ fuel →
      drainAux po (some e) fuel l =
        l.filter fun m => matchPasses (po m.patternIndex) e m := by
  intro l
  induction l with
  | nil => intro fuel h; cases fuel <;> simp [drainAux, nextFrom]
  | cons m rest ih =>
    intro fuel h
    cases fuel with
    | zero => simp at h
    | succ f =>
      by_cases hp : matchPasses (po m.patternIndex) e m = true
      · simp only [drainAux, nextFrom, hp, if_true, List.filter_cons]
        rw [ih f (by simp at h; omega)]
        try simp [hp]
      · have hp1 : matchPasses (po m.patternIndex) e m = false := by
          simpa using hp
        rw [drainAux_skip po e m rest f hp1]
        rw [ih (f + 1) (by simp at h ⊢; omega)]
        simp [List.filter_cons, hp1]

/-- C7: executing with no predicate evaluator disables predicate filtering —
every structural match is yielded, even one whose predicates would evaluate
false — while executing with an evaluator yields exactly the structural
matches for which every predicate of the pattern evaluates true, silently
dropping the rest. -/
theorem cursor_predicate_filtering (q : Query) (root : Node) (e : Evaluator) :
    (QueryCursor.execute q root none).allRemainingMatches = structuralMatches q root ∧
    (QueryCursor.execute q root (some e)).allRemainingMatches =
      (structuralMatches q root).filter
        (fun m => matchPasses (predsOfQuery q m.patternIndex) e m) := by
  constructor
  · exact drainAux_no_evaluator (predsOfQuery q) (structuralMatches q root) _ (le_refl _)
  · exact drainAux_with_evaluator (predsOfQuery q) e (structuralMatches q root) _ (le_refl _)

end Knut.TS

namespace Knut.TS

/-- C8: on the source containing `myFreeFunction` and `myOtherFreeFunction`,
the query with predicate `(#match? "my(Other)?FreeFunction" @name)` executed
under a predicate evaluator yields exactly two matches, in source order, each
binding `@name` once to the expected identifier text, and no further match. -/
theorem match_predicate_two_matches :
    queryNameTexts matchQueryText =
      some [["myFreeFunction"], ["myOtherFreeFunction"]] := by
  decide

/-- C9: on the source containing a function whose declarator text is `main`,
the query with predicate `(#eq? "main" @name)` executed under a predicate
evaluator yields exactly one match, whose single `@name` capture has node
text `main`, and no other match. -/
theorem eq_predicate_single_match :
    queryNameTexts eqQueryText = some [["main"]] := by
  decide

/-- A successful run means the final pass found no matches. -/
theorem runPasses_ok_empty (matcher : Source → List TMatch) (tmpl : String) :
    ∀ (fuel : Nat) (src t : Source),
      runPasses matcher tmpl fuel src = .ok t → matcher t = [] := by
  intro fuel
  induction fuel with
  | zero =>
    intro src t h
    simp only [runPasses] at h
    split_ifs at h with h1 h2
    · cases h
      simpa using h1
  | succ f ih =>
    intro src t h
    simp only [runPasses] at h
    split_ifs at h with h1 h2
    · cases h
      simpa using h1
    · exact ih _ _ h

/-- A pass that finds no matches returns its input unchanged. -/
theorem runPasses_zero_matches (matcher : Source → List TMatch) (tmpl : String)
    (fuel : Nat) (src : Source) (h : matcher src = []) :
    runPasses matcher tmpl fuel src = .ok src := by
  unfold runPasses
  simp [h]

/-- Every match the member-access matcher finds carries its whole span. -/
theorem dotGo_whole_isSome :
    ∀ (fuel i : Nat) (cs : List Char),
      ∀ m ∈ dotGo fuel i cs, m.whole.isSome = true := by
  intro fuel
  induction fuel with
  | zero =>
    intro i cs m hm
    cases cs <;> simp [dotGo] at hm
  | succ f ih =>
    intro i cs m hm
    cases cs with
    | nil => simp [dotGo] at hm
    | cons c cs1 =>
      simp only [dotGo] at hm
      split at hm
      · split at hm
        · split at hm
          · exact ih _ _ m hm
          · rcases List.mem_cons.mp hm with rfl | hm1
            · rfl
            · exact ih _ _ m hm1
        · exact ih _ _ m hm
      · exact ih _ _ m hm

end Knut.TS

namespace Knut.TS

/-- C5: behaviour of the member-access transformation: a zero-match first pass
returns the input unchanged without error; a successful run is idempotent (a
second run returns its input unchanged); when the first pass finds matches
and the rewritten text has none left, the result is exactly the one-pass
rewrite, which by construction replaces precisely the matched spans and copies
every other byte through; on the concrete two-dot-access source every
occurrence is rewritten. -/
theorem transformation_member_access_roundtrip (s : Source) :
    (dotMatcher s = [] → memberAccessTransform s = .ok s) ∧
    (∀ t, memberAccessTransform s = .ok t → memberAccessTransform t = .ok t) ∧
    (dotMatcher s ≠ [] →
      dotMatcher (applyMatches s arrowTemplate (dotMatcher s)) = [] →
      memberAccessTransform s = .ok (applyMatches s arrowTemplate (dotMatcher s))) ∧
    memberAccessTransform ("x = a.b; y = c.d;".toList) =
      .ok ("x = a->b; y = c->d;".toList) := by
  refine ⟨fun h => ?_, fun t ht => ?_, fun hne hafter => ?_, by decide⟩
  · exact runPasses_zero_matches dotMatcher arrowTemplate maxPasses s h
  · have h0 : dotMatcher t = [] :=
      runPasses_ok_empty dotMatcher arrowTemplate maxPasses s t ht
    exact runPasses_zero_matches dotMatcher arrowTemplate maxPasses t h0
  · have hany : (dotMatcher s).any (fun m => m.whole.isNone) = false := by
      rw [List.any_eq_false]
      intro m hm
      have hs := dotGo_whole_isSome (s.length + 1) 0 s m hm
      rcases hw : m.whole with _ | p
      · rw [hw] at hs; simp at hs
      · simp [hw]
    have hie : (dotMatcher s).isEmpty = false := by
      cases hd : dotMatcher s with
      | nil => exact absurd hd hne
      | cons a l => simp
    show runPasses dotMatcher arrowTemplate maxPasses s = _
    rw [show maxPasses = 9 + 1 from rfl]
    unfold runPasses
    simp only [hie, hany, Bool.false_eq_true, if_false]
    exact runPasses_zero_matches dotMatcher arrowTemplate 9 _ hafter

theorem transformation_member_access_roundtrip_witness :
    (dotMatcher ("ab".toList) = [] ∧
      memberAccessTransform ("ab".toList) = .ok ("ab".toList)) ∧
    (dotMatcher ("a.b".toList) ≠ [] ∧
      dotMatcher (applyMatches ("a.b".toList) arrowTemplate (dotMatcher ("a.b".toList))) = [] ∧
      memberAccessTransform ("a.b".toList) =
        .ok (applyMatches ("a.b".toList) arrowTemplate (dotMatcher ("a.b".toList)))) :=
  ⟨⟨by decide, (transformation_member_access_roundtrip ("ab".toList)).1 (by decide)⟩,
   ⟨by decide, by decide,
    (transformation_member_access_roundtrip ("a.b".toList)).2.2.1 (by decide) (by decide)⟩⟩

/-- The run loop reports NonConvergent on every fuel when every text keeps
matching with whole captures present. -/
theorem runPasses_nonconvergent (matcher : Source → List TMatch) (tmpl : String)
    (h : ∀ u : Source, matcher u ≠ [] ∧ (matcher u).all (fun m => m.whole.isSome) = true) :
    ∀ (fuel : Nat) (src : Source),
      runPasses matcher tmpl fuel src = .error .NonConvergent := by
  intro fuel
  induction fuel with
  | zero =>
    intro src
    obtain ⟨hne, hall⟩ := h src
    have hie : (matcher src).isEmpty = false := by
      cases hd : matcher src with
      | nil => exact absurd hd hne
      | cons a l => simp
    have hany : (matcher src).any (fun m => m.whole.isNone) = false := by
      rw [List.any_eq_false]
      intro x hx
      have hx2 := List.all_eq_true.mp hall x hx
      rcases hw : x.whole with _ | p
      · rw [hw] at hx2; simp at hx2
      · simp [hw]
    unfold runPasses
    simp [hie, hany]
  | succ f ih =>
    intro src
    obtain ⟨hne, hall⟩ := h src
    have hie : (matcher src).isEmpty = false := by
      cases hd : matcher src with
      | nil => exact absurd hd hne
      | cons a l => simp
    have hany : (matcher src).any (fun m => m.whole.isNone) = false := by
      rw [List.any_eq_false]
      intro x hx
      have hx2 := List.all_eq_true.mp hall x hx
      rcases hw : x.whole with _ | p
      · rw [hw] at hx2; simp at hx2
      · simp [hw]
    unfold runPasses
    simp [hie, hany, ih]

/-- C6: `Transformation::run` fails synchronously with
MissingWholeMatchCapture when a found match binds no whole-match capture
identifying the span to replace, and with NonConvergent when the pattern keeps
matching the rewritten output on every pass until the fixed maximum pass count
is exhausted; in both cases an error is returned, not retried. -/
theorem transformation_error_kinds (matcher : Source → List TMatch)
    (tmpl : String) (src : Source) :
    ((matcher src).any (fun m => m.whole.isNone) = true →
      (Transformation.mk src matcher tmpl).run = .error .MissingWholeMatchCapture) ∧
    ((∀ u : Source, matcher u ≠ [] ∧ (matcher u).all (fun m => m.whole.isSome) = true) →
      (Transformation.mk src matcher tmpl).run = .error .NonConvergent) := by
  constructor
  · intro hany
    have hne : matcher src ≠ [] := by
      intro hnil
      rw [hnil] at hany
      simp at hany
    have hie : (matcher src).isEmpty = false := by
      cases hd : matcher src with
      | nil => exact absurd hd hne
      | cons a l => simp
    show runPasses matcher tmpl maxPasses src = _
    unfold runPasses
    simp [hie, hany]
  · intro h
    exact runPasses_nonconvergent matcher tmpl h maxPasses src

theorem transformation_error_kinds_witness :
    ((Transformation.mk ("a.b".toList) noWholeMatcher "@arg->@field").run =
      .error .MissingWholeMatchCapture) ∧
    ((Transformation.mk ("a.b".toList) loopMatcher "@arg->@field").run =
      .error .NonConvergent) :=
  ⟨(transformation_error_kinds noWholeMatcher "@arg->@field" ("a.b".toList)).1 (by decide),
   (transformation_error_kinds loopMatcher "@arg->@field" ("a.b".toList)).2
     (fun u => ⟨by simp [loopMatcher], by simp [loopMatcher]⟩)⟩

end Knut.TS
